import Mathlib

/-!
Shallow embedding of `main.go` of `github-notification-manager`.

The program fetches the unread GitHub notifications of one repository,
sorts them, auto-approves dependency-bot notifications, and interactively
asks the user whether to mark each remaining one as read.

Go strings are modelled as Lean `String` (a structure over `List Char`);
the Go standard-library string helpers used by the source
(`strings.Split`, `strings.HasPrefix`, `strings.TrimPrefix`,
`strings.ToLower`, `strings.TrimSpace`) are embedded below as structurally
recursive functions over the character list, with Go's semantics.
The GitHub client is external: its responses (notification list pages and
mark-thread-read outcomes) are supplied as explicit oracles.
-/

/-- Go `strings.Split` helper: split a character list at every occurrence
of `sep`, accumulating the current segment in reverse in `acc`.
Mirrors Go's behavior for a non-empty separator: `Split("", "/") = [""]`,
`Split("a//b", "/") = ["a", "", "b"]`. -/
def splitCharAux (sep : Char) : List Char → List Char → List (List Char)
  | [], acc => [acc.reverse]
  | c :: cs, acc =>
    if c = sep then acc.reverse :: splitCharAux sep cs []
    else splitCharAux sep cs (c :: acc)

/-- Go `strings.Split(s, sep)` for a one-character separator (the source
only splits on `"/"`). -/
def goSplit (s : String) (sep : Char) : List String :=
  (splitCharAux sep s.data []).map String.mk

/-- Character-list version of Go `strings.HasPrefix`. -/
def isPrefixList : List Char → List Char → Bool
  | [], _ => true
  | _ :: _, [] => false
  | p :: ps, c :: cs => p = c && isPrefixList ps cs

/-- Go `strings.HasPrefix(s, pre)`. -/
def goStartsWith (s pre : String) : Bool := isPrefixList pre.data s.data

/-- Go `strings.TrimPrefix(s, pre)` in the case the source uses it
(right after a `HasPrefix` check, so the prefix is known present):
drop the first `n` characters. The source's prefix is ASCII, so
character count and byte count agree. -/
def goDrop (s : String) (n : Nat) : String := String.mk (s.data.drop n)

/-- Go `strings.ToLower` (ASCII case mapping; the inputs the source
compares against, `"y"`/`"yes"`, are ASCII). -/
def goToLower (s : String) : String := String.mk (s.data.map Char.toLower)

/-- Go `strings.TrimSpace`: drop leading and trailing whitespace. -/
def goTrimSpace (s : String) : String :=
  String.mk (((s.data.dropWhile Char.isWhitespace).reverse.dropWhile Char.isWhitespace).reverse)

/-- `github.Notification.Subject` (the fields the source reads:
`GetTitle`, `GetType`, `GetURL`). -/
structure Subject where
  title : String
  type : String
  url : String
deriving DecidableEq

/-- `github.Notification` (the fields the source reads: `GetID` — a
string in go-github —, `GetSubject`, `GetRepository().GetFullName()`,
`GetUpdatedAt`). Timestamps are modelled as integers; Go
`time.Time.After` is strict `>` on that timeline. -/
structure Notification where
  id : String
  subject : Subject
  repoFullName : String
  updatedAt : Int
deriving DecidableEq

/-- `main.go` lines 40-42 comparator: `notifications[i].GetUpdatedAt().Time.After(notifications[j].GetUpdatedAt().Time)`,
i.e. `a` is strictly later than `b`. -/
def after (a b : Notification) : Bool := b.updatedAt < a.updatedAt

/-- Insert `x` into a list already sorted newest-first, keeping `y` ahead
only while `y` is strictly later than `x` (so an element inserted from
earlier in the input stays ahead of equal-timestamp elements: a stable
descending insertion sort, the most favorable deterministic model of
`sort.Slice`, and the one matching Go's small-slice insertion sort). -/
def insertDesc (x : Notification) : List Notification → List Notification
  | [] => [x]
  | y :: ys => if after y x then y :: insertDesc x ys else x :: y :: ys

/-- `sort.Slice(notifications, less = after)` of `main.go` line 40:
sort newest-first. -/
def sortDesc : List Notification → List Notification
  | [] => []
  | x :: xs => insertDesc x (sortDesc xs)

/-- `main.go` lines 40-43: sort newest-first, then `slices.Reverse`, so
the stored slice is oldest-first. -/
def sortedNotifications (l : List Notification) : List Notification :=
  (sortDesc l).reverse

/-- `main.go` line 51: the review loop walks the stored slice from index
`len-1` down to `0` (`// newest first`), so the processing order is the
reverse of the stored oldest-first slice. -/
def processOrder (l : List Notification) : List Notification :=
  (sortedNotifications l).reverse

/-- `isRenovate` of `main.go` lines 92-101. -/
def isRenovate (n : Notification) : Bool :=
  if goStartsWith n.subject.title "chore(deps)" then true
  else if goStartsWith n.subject.title "fix(deps)" then true
  else false

/-- The fixed API root checked by `uiURL` (`main.go` line 130). -/
def apiRoot : String := "https://api.github.com/repos/"

/-- `uiURL` of `main.go` lines 136-167, the part after the prefix check:
the `switch` over `parts[2]`. A list of fewer than 3 segments returns the
input unchanged (line 137); each recognized kind deep-links through
`parts[3]` when present and otherwise, like an unrecognized kind, falls
through to the repository homepage (lines 161-167). -/
def uiURLFromParts (apiURL : String) : List String → String
  | owner :: repo :: kind :: rest =>
    let repoPath := owner ++ "/" ++ repo
    if kind = "pulls" then
      match rest with
      | id :: _ => "https://github.com/" ++ repoPath ++ "/pull/" ++ id
      | [] => "https://github.com/" ++ repoPath
    else if kind = "issues" then
      match rest with
      | id :: _ => "https://github.com/" ++ repoPath ++ "/issues/" ++ id
      | [] => "https://github.com/" ++ repoPath
    else if kind = "commits" then
      match rest with
      | id :: _ => "https://github.com/" ++ repoPath ++ "/commit/" ++ id
      | [] => "https://github.com/" ++ repoPath
    else if kind = "releases" then
      match rest with
      | id :: _ => "https://github.com/" ++ repoPath ++ "/releases/" ++ id
      | [] => "https://github.com/" ++ repoPath
    else
      "https://github.com/" ++ repoPath
  | _ => apiURL

/-- `uiURL` of `main.go` lines 129-168: translate an API-form resource
URL to the human-facing URL; an input not starting with the API root is
returned unchanged (lines 131-133). -/
def uiURL (apiURL : String) : String :=
  if goStartsWith apiURL apiRoot then
    uiURLFromParts apiURL (goSplit (goDrop apiURL apiRoot.length) '/')
  else apiURL

/-- `main.go` line 71: `strings.TrimSpace(strings.ToLower(text))`. -/
def normalizeInput (s : String) : String := goTrimSpace (goToLower s)

/-- `main.go` line 73: the normalized input confirms the mark-as-read. -/
def confirms (s : String) : Bool :=
  normalizeInput s = "y" || normalizeInput s = "yes"

/-- One page response of `client.Activity.ListRepositoryNotifications`:
the notifications of the page and `resp.NextPage` (`0` means no further
page). -/
structure Page where
  notes : List Notification
  nextPage : Nat
deriving DecidableEq

/-- `fetchAllUnread` of `main.go` lines 103-127, with the GitHub client
modelled as the finite trace of responses the server returns to the
successive page requests (the source's `opts.Page = resp.NextPage`
bookkeeping selects which page the next response is for; the trace lists
the responses in request order). Each iteration consumes one response:
an error aborts the whole fetch with no list; otherwise the page's
notifications are appended and the loop stops exactly when
`resp.NextPage == 0`. `none` means the loop is still running when the
modelled trace is exhausted. -/
def fetchAllUnread : List (Except String Page) → Option (Except String (List Notification))
  | [] => none
  | Except.error e :: _ => some (Except.error e)
  | Except.ok p :: rest =>
    if p.nextPage = 0 then some (Except.ok p.notes)
    else (fetchAllUnread rest).map (fun r => r.map (fun ns => p.notes ++ ns))

/-- Per-notification outcome of the review loop; the `Bool` of
`autoApproved` and `markedRead` records whether the
`MarkThreadRead` call succeeded (`markAsRead`, `main.go` lines 83-90,
only logs a warning on failure). -/
inductive ItemOutcome
  | autoApproved (markOk : Bool)
  | markedRead (markOk : Bool)
  | skipped
deriving DecidableEq

/-- The review loop of `main.go` lines 51-78 over an already-ordered
list of notifications. `inputs` are the lines read from stdin (one per
non-auto-approved notification; an exhausted list models end of input,
where `reader.ReadString` returns `""` and the error is ignored).
`marks` is the oracle of `MarkThreadRead` outcomes, one consumed per
call (exhausted defaults to success). -/
def reviewLoop : List Notification → List String → List Bool → List (Notification × ItemOutcome)
  | [], _, _ => []
  | n :: rest, inputs, marks =>
    if isRenovate n then
      (n, ItemOutcome.autoApproved (marks.headD true)) :: reviewLoop rest inputs marks.tail
    else if confirms (inputs.headD "") then
      (n, ItemOutcome.markedRead (marks.headD true)) :: reviewLoop rest inputs.tail marks.tail
    else
      (n, ItemOutcome.skipped) :: reviewLoop rest inputs.tail marks

/-- The ids of the notifications for which the loop issued a
`MarkThreadRead` call (auto-approved or confirmed; skipped items make no
remote call). -/
def markAttempts (events : List (Notification × ItemOutcome)) : List String :=
  events.filterMap (fun p =>
    match p.2 with
    | ItemOutcome.autoApproved _ => some p.1.id
    | ItemOutcome.markedRead _ => some p.1.id
    | ItemOutcome.skipped => none)

/-- Overall outcome of a run of `main` (after the credential check):
`fatalFetch` is `log.Fatalf` at `main.go` line 33, `noUnread` the early
return at lines 35-38, `completed` the full review loop followed by the
final done message at line 80. -/
inductive RunResult
  | fatalFetch (e : String)
  | noUnread
  | completed (events : List (Notification × ItemOutcome))
deriving DecidableEq

/-- `main` of `main.go` lines 31-81: fetch, bail out fatally on a fetch
error, print the nothing-to-do message on an empty list, otherwise sort
and run the review loop in the loop's newest-first order and reach the
done message. `none` only when the modelled server trace is too short. -/
def mainRun (trace : List (Except String Page)) (inputs : List String)
    (marks : List Bool) : Option RunResult :=
  match fetchAllUnread trace with
  | none => none
  | some (Except.error e) => some (RunResult.fatalFetch e)
  | some (Except.ok notifications) =>
    if notifications.length = 0 then some RunResult.noUnread
    else some (RunResult.completed (reviewLoop (processOrder notifications) inputs marks))

/-- The `MarkThreadRead` calls a run issues (none unless the run reaches
the review loop). -/
def runMarkAttempts : RunResult → List String
  | RunResult.fatalFetch _ => []
  | RunResult.noUnread => []
  | RunResult.completed events => markAttempts events

/-- Whether an outcome corresponds to a `MarkThreadRead` call having been
issued for the item. -/
def madeRemoteCall : ItemOutcome → Bool
  | ItemOutcome.autoApproved _ => true
  | ItemOutcome.markedRead _ => true
  | ItemOutcome.skipped => false

/-- Sample auto-approvable notification (a dependency-bot pull request),
used as a concrete instance in witnesses. -/
def choreN : Notification :=
  ⟨"101", ⟨"chore(deps): bump lodash", "PullRequest",
    "https://api.github.com/repos/acme/widgets/pulls/42"⟩, "acme/widgets", 5⟩

/-- Sample ordinary notification (prompts the user), older than
`choreN`. -/
def featN : Notification :=
  ⟨"102", ⟨"Add new feature", "Issue",
    "https://api.github.com/repos/acme/widgets/issues/7"⟩, "acme/widgets", 3⟩

/-- Sample notification with timestamp 4, tied with `tieB`. -/
def tieA : Notification :=
  ⟨"11", ⟨"First tied notification", "Issue", "u1"⟩, "acme/widgets", 4⟩

/-- Sample notification distinct from `tieA` but with the same
timestamp. -/
def tieB : Notification :=
  ⟨"12", ⟨"Second tied notification", "Issue", "u2"⟩, "acme/widgets", 4⟩

/-! ### String helper lemmas -/

theorem String.data_append_eq (a b : String) : (a ++ b).data = a.data ++ b.data := rfl

theorem String.mk_data_eq (s : String) : String.mk s.data = s := rfl

theorem isPrefixList_self_append (p s : List Char) : isPrefixList p (p ++ s) = true := by
  induction p with
  | nil => rfl
  | cons c cs ih => simp [isPrefixList, ih]

theorem goStartsWith_append (pre s : String) : goStartsWith (pre ++ s) pre = true := by
  simp [goStartsWith, String.data_append_eq, isPrefixList_self_append]

theorem goDrop_append (pre s : String) : goDrop (pre ++ s) pre.length = s := by
  show String.mk (((pre ++ s).data).drop pre.data.length) = s
  rw [String.data_append_eq, List.drop_left]

theorem splitCharAux_of_not_mem (sep : Char) (xs acc : List Char) (h : sep ∉ xs) :
    splitCharAux sep xs acc = [acc.reverse ++ xs] := by
  induction xs generalizing acc with
  | nil => simp [splitCharAux]
  | cons c cs ih =>
    have hc : c ≠ sep := fun hce => h (hce ▸ List.mem_cons_self c cs)
    have hcs : sep ∉ cs := fun hm => h (List.mem_cons_of_mem c hm)
    simp [splitCharAux, hc, ih _ hcs]

theorem splitCharAux_append_sep (sep : Char) (xs ys acc : List Char) (h : sep ∉ xs) :
    splitCharAux sep (xs ++ sep :: ys) acc = (acc.reverse ++ xs) :: splitCharAux sep ys [] := by
  induction xs generalizing acc with
  | nil => simp [splitCharAux]
  | cons c cs ih =>
    have hc : c ≠ sep := fun hce => h (hce ▸ List.mem_cons_self c cs)
    have hcs : sep ∉ cs := fun hm => h (List.mem_cons_of_mem c hm)
    simp [splitCharAux, hc, ih _ hcs]

theorem goSplit_single (s : String) (h : ('/' : Char) ∉ s.data) : goSplit s '/' = [s] := by
  simp [goSplit, splitCharAux_of_not_mem _ _ _ h, String.mk_data_eq]

theorem goSplit_sep_cons (a b : String) (h : ('/' : Char) ∉ a.data) :
    goSplit (a ++ "/" ++ b) '/' = a :: goSplit b '/' := by
  have hdata : (a ++ "/" ++ b).data = a.data ++ '/' :: b.data := by
    rw [String.data_append_eq, String.data_append_eq]
    have hslash : ("/" : String).data = ['/'] := rfl
    rw [hslash, List.append_assoc]
    rfl
  simp only [goSplit, hdata, splitCharAux_append_sep _ _ _ _ h]
  simp [String.mk_data_eq]

/-! ### Sorting lemmas -/

theorem insertDesc_perm (x : Notification) (l : List Notification) :
    (insertDesc x l).Perm (x :: l) := by
  induction l with
  | nil => exact List.Perm.refl _
  | cons y ys ih =>
    by_cases h : after y x
    · simp only [insertDesc, h, if_true]
      exact (ih.cons y).trans (List.Perm.swap x y ys)
    · simp only [insertDesc, h, if_false]
      exact List.Perm.refl _

theorem sortDesc_perm (l : List Notification) : (sortDesc l).Perm l := by
  induction l with
  | nil => exact List.Perm.refl _
  | cons x xs ih =>
    exact (insertDesc_perm x (sortDesc xs)).trans (ih.cons x)

theorem mem_insertDesc (z x : Notification) (l : List Notification)
    (h : z ∈ insertDesc x l) : z = x ∨ z ∈ l := by
  have := (insertDesc_perm x l).mem_iff.mp h
  simpa using this

theorem insertDesc_pairwise (x : Notification) (l : List Notification)
    (h : List.Pairwise (fun a b => b.updatedAt ≤ a.updatedAt) l) :
    List.Pairwise (fun a b => b.updatedAt ≤ a.updatedAt) (insertDesc x l) := by
  induction l with
  | nil => simp [insertDesc]
  | cons y ys ih =>
    rcases List.pairwise_cons.mp h with ⟨hy, hys⟩
    by_cases hx : after y x
    · simp only [insertDesc, hx, if_true]
      refine List.pairwise_cons.mpr ⟨?_, ih hys⟩
      intro z hz
      rcases mem_insertDesc z x ys hz with rfl | hzys
      · exact le_of_lt (by simpa [after] using hx)
      · exact hy z hzys
    · simp only [insertDesc, hx, if_false]
      have hxy : y.updatedAt ≤ x.updatedAt := by
        simpa [after] using hx
      refine List.pairwise_cons.mpr ⟨?_, h⟩
      intro z hz
      rcases List.mem_cons.mp hz with rfl | hzys
      · exact hxy
      · exact le_trans (hy z hzys) hxy

theorem sortDesc_pairwise (l : List Notification) :
    List.Pairwise (fun a b => b.updatedAt ≤ a.updatedAt) (sortDesc l) := by
  induction l with
  | nil => simp [sortDesc]
  | cons x xs ih => exact insertDesc_pairwise x (sortDesc xs) ih

theorem processOrder_eq_sortDesc (l : List Notification) : processOrder l = sortDesc l := by
  simp [processOrder, sortedNotifications]

theorem sortedNotifications_perm (l : List Notification) : (sortedNotifications l).Perm l := by
  exact ((sortDesc l).reverse_perm).trans (sortDesc_perm l)

theorem insertDesc_of_eqTime (x : Notification) (l : List Notification)
    (h : ∀ a ∈ l, a.updatedAt = x.updatedAt) : insertDesc x l = x :: l := by
  cases l with
  | nil => rfl
  | cons y ys =>
    have hy : y.updatedAt = x.updatedAt := h y (List.mem_cons_self y ys)
    have : after y x = false := by simp [after, hy]
    simp [insertDesc, this]

/-! ### Review-loop lemmas -/

theorem reviewLoop_map_fst (ns : List Notification) (inputs : List String) (marks : List Bool) :
    (reviewLoop ns inputs marks).map Prod.fst = ns := by
  induction ns generalizing inputs marks with
  | nil => rfl
  | cons n rest ih =>
    by_cases hr : isRenovate n
    · simp [reviewLoop, hr, ih]
    · by_cases hc : confirms (inputs.head?.getD "")
      · simp [reviewLoop, hr, hc, ih]
      · simp [reviewLoop, hr, hc, ih]

theorem reviewLoop_length (ns : List Notification) (inputs : List String) (marks : List Bool) :
    (reviewLoop ns inputs marks).length = ns.length := by
  have := congrArg List.length (reviewLoop_map_fst ns inputs marks)
  simpa using this

theorem reviewLoop_decisions_indep (ns : List Notification) (inputs : List String)
    (marks marks' : List Bool) :
    (reviewLoop ns inputs marks).map (fun p => madeRemoteCall p.2)
      = (reviewLoop ns inputs marks').map (fun p => madeRemoteCall p.2) := by
  induction ns generalizing inputs marks marks' with
  | nil => rfl
  | cons n rest ih =>
    by_cases hr : isRenovate n
    · simp only [reviewLoop, hr, if_true, List.map_cons]
      rw [ih inputs marks.tail marks'.tail]
      rfl
    · by_cases hc : confirms (inputs.head?.getD "")
      · simp only [reviewLoop, hr, if_false, Bool.false_eq_true, List.headD_eq_head?_getD,
          hc, if_true, List.map_cons]
        rw [ih inputs.tail marks.tail marks'.tail]
        rfl
      · simp only [reviewLoop, hr, if_false, Bool.false_eq_true, List.headD_eq_head?_getD,
          hc, List.map_cons]
        rw [ih inputs.tail marks marks']

/-! ### Fetch lemmas -/

theorem fetchAllUnread_error (pages : List Page) (e : String)
    (restTrace : List (Except String Page)) (h : ∀ p ∈ pages, p.nextPage ≠ 0) :
    fetchAllUnread (pages.map Except.ok ++ Except.error e :: restTrace)
      = some (Except.error e) := by
  induction pages with
  | nil => rfl
  | cons p ps ih =>
    have hp : p.nextPage ≠ 0 := h p (List.mem_cons_self p ps)
    have hps : ∀ q ∈ ps, q.nextPage ≠ 0 := fun q hq => h q (List.mem_cons_of_mem p hq)
    simp [fetchAllUnread, hp, ih hps]
    rfl

theorem fetchAllUnread_ok (pages : List Page) (lastPage : Page)
    (restTrace : List (Except String Page))
    (h : ∀ p ∈ pages, p.nextPage ≠ 0) (hl : lastPage.nextPage = 0) :
    fetchAllUnread (pages.map Except.ok ++ Except.ok lastPage :: restTrace)
      = some (Except.ok ((pages.map Page.notes).flatten ++ lastPage.notes)) := by
  induction pages with
  | nil => simp [fetchAllUnread, hl]
  | cons p ps ih =>
    have hp : p.nextPage ≠ 0 := h p (List.mem_cons_self p ps)
    have hps : ∀ q ∈ ps, q.nextPage ≠ 0 := fun q hq => h q (List.mem_cons_of_mem p hq)
    simp [fetchAllUnread, hp, ih hps, Except.map]

theorem fetchAllUnread_none (trace : List (Except String Page))
    (h : ∀ r ∈ trace, ∃ p, r = Except.ok p ∧ p.nextPage ≠ 0) :
    fetchAllUnread trace = none := by
  induction trace with
  | nil => rfl
  | cons r rs ih =>
    rcases h r (List.mem_cons_self r rs) with ⟨p, rfl, hp⟩
    have hrs : ∀ q ∈ rs, ∃ pq, q = Except.ok pq ∧ pq.nextPage ≠ 0 :=
      fun q hq => h q (List.mem_cons_of_mem _ hq)
    simp [fetchAllUnread, hp, ih hrs]

/-! ### uiURL lemmas -/

theorem uiURL_apiRoot_append (s : String) :
    uiURL (apiRoot ++ s) = uiURLFromParts (apiRoot ++ s) (goSplit s '/') := by
  simp [uiURL, goStartsWith_append, goDrop_append]

theorem uiURLFromParts_short (u : String) (parts : List String)
    (h : parts.length < 3) : uiURLFromParts u parts = u := by
  cases parts with
  | nil => rfl
  | cons a t =>
    cases t with
    | nil => rfl
    | cons b t2 =>
      cases t2 with
      | nil => rfl
      | cons c t3 => simp at h; omega

theorem goSplit_four (owner repo kind id : String)
    (ho : ('/' : Char) ∉ owner.data) (hr : ('/' : Char) ∉ repo.data)
    (hk : ('/' : Char) ∉ kind.data) (hi : ('/' : Char) ∉ id.data) :
    goSplit (owner ++ "/" ++ (repo ++ "/" ++ (kind ++ "/" ++ id))) '/'
      = [owner, repo, kind, id] := by
  rw [goSplit_sep_cons _ _ ho, goSplit_sep_cons _ _ hr, goSplit_sep_cons _ _ hk,
    goSplit_single _ hi]

theorem goSplit_three (owner repo kind : String)
    (ho : ('/' : Char) ∉ owner.data) (hr : ('/' : Char) ∉ repo.data)
    (hk : ('/' : Char) ∉ kind.data) :
    goSplit (owner ++ "/" ++ (repo ++ "/" ++ kind)) '/' = [owner, repo, kind] := by
  rw [goSplit_sep_cons _ _ ho, goSplit_sep_cons _ _ hr, goSplit_single _ hk]

theorem goSplit_four_more (owner repo kind id t : String)
    (ho : ('/' : Char) ∉ owner.data) (hr : ('/' : Char) ∉ repo.data)
    (hk : ('/' : Char) ∉ kind.data) (hi : ('/' : Char) ∉ id.data) :
    goSplit (owner ++ "/" ++ (repo ++ "/" ++ (kind ++ "/" ++ (id ++ "/" ++ t)))) '/'
      = owner :: repo :: kind :: id :: goSplit t '/' := by
  rw [goSplit_sep_cons _ _ ho, goSplit_sep_cons _ _ hr, goSplit_sep_cons _ _ hk,
    goSplit_sep_cons _ _ hi]

theorem processOrder_length (l : List Notification) :
    (processOrder l).length = l.length := by
  rw [processOrder_eq_sortDesc]
  exact (sortDesc_perm l).length_eq

/-! ### Claim theorems -/

/-- C1 (counterexample): the claim "the interactive reviewer processes
notifications in chronologically ascending order (oldest first)" is false
on the code: for the concrete fetched list `[featN, choreN]` (timestamps
3 and 5) the review loop of `main.go` line 51 walks the stored
oldest-first slice backwards and processes the newer notification
(timestamp 5) before the older one (timestamp 3). -/
theorem processOrder_not_ascending :
    ¬ List.Pairwise (fun a b : Notification => a.updatedAt ≤ b.updatedAt)
      (processOrder [featN, choreN]) := by decide

/-- C1 (amended): the interactive reviewer processes every fetched
notification exactly once, in chronologically DESCENDING order of
last-updated time: for any two notifications A processed before B, A's
last-updated timestamp is greater than or equal to B's (newest
notification presented first). -/
theorem processOrder_newest_first (l : List Notification) :
    List.Pairwise (fun a b : Notification => b.updatedAt ≤ a.updatedAt) (processOrder l)
    ∧ (processOrder l).Perm l := by
  rw [processOrder_eq_sortDesc]
  exact ⟨sortDesc_pairwise l, sortDesc_perm l⟩

/-- C5 (counterexample): the claim "two notifications with equal
last-updated timestamps keep their original relative order in the sorted
output" is false on the code: for the concrete fetched list
`[tieA, tieB]` of two distinct notifications with equal timestamps, the
stored slice after `main.go` lines 40-43 (descending sort, which keeps
ties in input order, followed by `slices.Reverse`) is `[tieB, tieA]`. -/
theorem sorter_not_stable :
    tieA.updatedAt = tieB.updatedAt ∧ tieA ≠ tieB
    ∧ sortedNotifications [tieA, tieB] = [tieB, tieA] := by decide

/-- C5 (amended): the sorted output is a permutation of the fetched list
and for all adjacent pairs the earlier element's updatedAt is ≤ the
later's, but the sorter is NOT stable: two notifications with equal
last-updated timestamps appear in REVERSED original order in the sorted
output (the descending sort keeps ties in input order and the subsequent
reverse flips them; Go's `sort.Slice` moreover guarantees no tie order
at all). -/
theorem sorter_sorted_perm (l : List Notification) (a b : Notification)
    (h : a.updatedAt = b.updatedAt) :
    (sortedNotifications l).Perm l
    ∧ List.Pairwise (fun x y : Notification => x.updatedAt ≤ y.updatedAt)
        (sortedNotifications l)
    ∧ sortedNotifications [a, b] = [b, a] := by
  refine ⟨sortedNotifications_perm l, ?_, ?_⟩
  · exact List.pairwise_reverse.mpr (sortDesc_pairwise l)
  · have hab : after b a = false := by simp [after, h]
    simp [sortedNotifications, sortDesc, insertDesc, hab]

/-- C5 witness: the amended claim at the concrete tied pair
`tieA`, `tieB`. -/
theorem sorter_sorted_perm_witness :
    sortedNotifications [tieA, tieB] = [tieB, tieA] :=
  (sorter_sorted_perm [tieA, tieB] tieA tieB rfl).2.2

/-- C4: `isRenovate` depends only on the subject title; it is true
exactly when the title begins with `"chore(deps)"` or `"fix(deps)"`; in
particular, whatever the other fields hold, titles
`"chore(deps): bump x to y"` and `"fix(deps): patch z"` classify true
and `"feat: add widget"` and `""` classify false. -/
theorem isRenovate_title_only (n m : Notification)
    (h : n.subject.title = m.subject.title) :
    isRenovate n = isRenovate m
    ∧ (isRenovate n = true ↔
        (goStartsWith n.subject.title "chore(deps)" = true
          ∨ goStartsWith n.subject.title "fix(deps)" = true))
    ∧ (∀ id ty u repo t, isRenovate ⟨id, ⟨"chore(deps): bump x to y", ty, u⟩, repo, t⟩ = true)
    ∧ (∀ id ty u repo t, isRenovate ⟨id, ⟨"fix(deps): patch z", ty, u⟩, repo, t⟩ = true)
    ∧ (∀ id ty u repo t, isRenovate ⟨id, ⟨"feat: add widget", ty, u⟩, repo, t⟩ = false)
    ∧ (∀ id ty u repo t, isRenovate ⟨id, ⟨"", ty, u⟩, repo, t⟩ = false) := by
  refine ⟨by simp [isRenovate, h], ?_, fun _ _ _ _ _ => rfl, fun _ _ _ _ _ => rfl,
    fun _ _ _ _ _ => rfl, fun _ _ _ _ _ => rfl⟩
  by_cases h1 : goStartsWith n.subject.title "chore(deps)"
  · simp [isRenovate, h1]
  · by_cases h2 : goStartsWith n.subject.title "fix(deps)"
    · simp [isRenovate, h1, h2]
    · simp [isRenovate, h1, h2]

/-- C4 witness: the classifier agrees on two concrete notifications that
share a title but differ in every other field (and classifies them
true). -/
theorem isRenovate_title_only_witness :
    isRenovate ⟨"1", ⟨"chore(deps): bump lodash", "PullRequest", "u1"⟩, "r1", 5⟩
      = isRenovate ⟨"2", ⟨"chore(deps): bump lodash", "Issue", "u2"⟩, "r2", 9⟩ :=
  (isRenovate_title_only _ _ rfl).1

/-- C2: for every input URL of the shape
`<api-root>/repos/<owner>/<repo>/<kind>/<id>` (slash-free segments),
`uiURL` maps kind `pulls` to `https://github.com/<owner>/<repo>/pull/<id>`,
`issues` to `.../issues/<id>`, `commits` to `.../commit/<id>`,
`releases` to `.../releases/<id>`, and any other kind to the repository
homepage `https://github.com/<owner>/<repo>`. -/
theorem uiURL_maps_kinds (owner repo id : String)
    (ho : ('/' : Char) ∉ owner.data) (hr : ('/' : Char) ∉ repo.data)
    (hi : ('/' : Char) ∉ id.data) :
    uiURL (apiRoot ++ (owner ++ "/" ++ (repo ++ "/" ++ ("pulls" ++ "/" ++ id))))
        = "https://github.com/" ++ (owner ++ "/" ++ repo) ++ "/pull/" ++ id
    ∧ uiURL (apiRoot ++ (owner ++ "/" ++ (repo ++ "/" ++ ("issues" ++ "/" ++ id))))
        = "https://github.com/" ++ (owner ++ "/" ++ repo) ++ "/issues/" ++ id
    ∧ uiURL (apiRoot ++ (owner ++ "/" ++ (repo ++ "/" ++ ("commits" ++ "/" ++ id))))
        = "https://github.com/" ++ (owner ++ "/" ++ repo) ++ "/commit/" ++ id
    ∧ uiURL (apiRoot ++ (owner ++ "/" ++ (repo ++ "/" ++ ("releases" ++ "/" ++ id))))
        = "https://github.com/" ++ (owner ++ "/" ++ repo) ++ "/releases/" ++ id
    ∧ (∀ kind : String, ('/' : Char) ∉ kind.data →
        kind ≠ "pulls" → kind ≠ "issues" → kind ≠ "commits" → kind ≠ "releases" →
        uiURL (apiRoot ++ (owner ++ "/" ++ (repo ++ "/" ++ (kind ++ "/" ++ id))))
          = "https://github.com/" ++ (owner ++ "/" ++ repo)) := by
  refine ⟨?_, ?_, ?_, ?_, ?_⟩
  · rw [uiURL_apiRoot_append, goSplit_four _ _ _ _ ho hr (by decide) hi]
    simp [uiURLFromParts]
  · rw [uiURL_apiRoot_append, goSplit_four _ _ _ _ ho hr (by decide) hi]
    simp [uiURLFromParts]
  · rw [uiURL_apiRoot_append, goSplit_four _ _ _ _ ho hr (by decide) hi]
    simp [uiURLFromParts]
  · rw [uiURL_apiRoot_append, goSplit_four _ _ _ _ ho hr (by decide) hi]
    simp [uiURLFromParts]
  · intro kind hk h1 h2 h3 h4
    rw [uiURL_apiRoot_append, goSplit_four _ _ _ _ ho hr hk hi]
    simp [uiURLFromParts, h1, h2, h3, h4]

/-- C2 witness: the mapping at the concrete URL
`https://api.github.com/repos/acme/widgets/pulls/42`. -/
theorem uiURL_maps_kinds_witness :
    uiURL (apiRoot ++ ("acme" ++ "/" ++ ("widgets" ++ "/" ++ ("pulls" ++ "/" ++ "42"))))
      = "https://github.com/" ++ ("acme" ++ "/" ++ "widgets") ++ "/pull/" ++ "42" :=
  (uiURL_maps_kinds "acme" "widgets" "42" (by decide) (by decide) (by decide)).1

/-- C3: `uiURL` is total and never fails: an input not starting with the
API-root prefix is returned unchanged; so is an input whose remainder
after the prefix has fewer than 3 slash-separated segments; and a
recognized kind with no id segment (exactly 3 segments) falls back to
the repository homepage. -/
theorem uiURL_total_fallbacks :
    (∀ s : String, goStartsWith s apiRoot = false → uiURL s = s)
    ∧ (∀ s : String, (goSplit (goDrop s apiRoot.length) '/').length < 3 → uiURL s = s)
    ∧ (∀ owner repo : String, ('/' : Char) ∉ owner.data → ('/' : Char) ∉ repo.data →
        ∀ kind : String, kind ∈ (["pulls", "issues", "commits", "releases"] : List String) →
        uiURL (apiRoot ++ (owner ++ "/" ++ (repo ++ "/" ++ kind)))
          = "https://github.com/" ++ (owner ++ "/" ++ repo)) := by
  refine ⟨?_, ?_, ?_⟩
  · intro s h
    simp [uiURL, h]
  · intro s h
    by_cases hs : goStartsWith s apiRoot
    · simp [uiURL, hs, uiURLFromParts_short _ _ h]
    · simp [uiURL, hs]
  · intro owner repo ho hr kind hk
    have hk4 : kind = "pulls" ∨ kind = "issues" ∨ kind = "commits" ∨ kind = "releases" := by
      simpa using hk
    rcases hk4 with rfl | rfl | rfl | rfl <;>
      · rw [uiURL_apiRoot_append, goSplit_three _ _ _ ho hr (by decide)]
        simp [uiURLFromParts]

/-- C3 witness: the fallbacks at the concrete inputs `not-a-github-url`
and `https://api.github.com/repos/acme/widgets/pulls` (no id). -/
theorem uiURL_total_fallbacks_witness :
    uiURL "not-a-github-url" = "not-a-github-url"
    ∧ uiURL (apiRoot ++ ("acme" ++ "/" ++ ("widgets" ++ "/" ++ "pulls")))
        = "https://github.com/" ++ ("acme" ++ "/" ++ "widgets") :=
  ⟨uiURL_total_fallbacks.1 "not-a-github-url" (by decide),
    uiURL_total_fallbacks.2.2 "acme" "widgets" (by decide) (by decide) "pulls" (by decide)⟩

/-- C10: for a recognized kind with more than 4 slash-separated segments
after the API root, `uiURL` uses only the fourth segment as the id and
silently discards everything after it (the trailing text `t` may itself
contain further slashes). -/
theorem uiURL_ignores_extra_segments (owner repo id t : String)
    (ho : ('/' : Char) ∉ owner.data) (hr : ('/' : Char) ∉ repo.data)
    (hi : ('/' : Char) ∉ id.data) :
    uiURL (apiRoot ++ (owner ++ "/" ++ (repo ++ "/" ++ ("pulls" ++ "/" ++ (id ++ "/" ++ t)))))
        = "https://github.com/" ++ (owner ++ "/" ++ repo) ++ "/pull/" ++ id
    ∧ uiURL (apiRoot ++ (owner ++ "/" ++ (repo ++ "/" ++ ("issues" ++ "/" ++ (id ++ "/" ++ t)))))
        = "https://github.com/" ++ (owner ++ "/" ++ repo) ++ "/issues/" ++ id
    ∧ uiURL (apiRoot ++ (owner ++ "/" ++ (repo ++ "/" ++ ("commits" ++ "/" ++ (id ++ "/" ++ t)))))
        = "https://github.com/" ++ (owner ++ "/" ++ repo) ++ "/commit/" ++ id
    ∧ uiURL (apiRoot ++ (owner ++ "/" ++ (repo ++ "/" ++ ("releases" ++ "/" ++ (id ++ "/" ++ t)))))
        = "https://github.com/" ++ (owner ++ "/" ++ repo) ++ "/releases/" ++ id := by
  refine ⟨?_, ?_, ?_, ?_⟩ <;>
    · rw [uiURL_apiRoot_append, goSplit_four_more _ _ _ _ _ ho hr (by decide) hi]
      simp [uiURLFromParts]

/-- C10 witness: the concrete URL
`https://api.github.com/repos/acme/widgets/pulls/42/comments/7` maps to
`https://github.com/acme/widgets/pull/42`. -/
theorem uiURL_ignores_extra_segments_witness :
    uiURL (apiRoot ++ ("acme" ++ "/" ++ ("widgets" ++ "/" ++ ("pulls" ++ "/" ++ ("42" ++ "/" ++ "comments/7")))))
      = "https://github.com/" ++ ("acme" ++ "/" ++ "widgets") ++ "/pull/" ++ "42" :=
  (uiURL_ignores_extra_segments "acme" "widgets" "42" "comments/7"
    (by decide) (by decide) (by decide)).1

/-- C6: if any paginated list request fails (after any number of
successful non-final pages), the fetch returns the error and no
notification list, and the run aborts fatally with no notification
processed and no mark-as-read call issued. -/
theorem fetch_error_aborts (pages : List Page) (e : String)
    (restTrace : List (Except String Page)) (inputs : List String) (marks : List Bool)
    (h : ∀ p ∈ pages, p.nextPage ≠ 0) :
    fetchAllUnread (pages.map Except.ok ++ Except.error e :: restTrace)
        = some (Except.error e)
    ∧ mainRun (pages.map Except.ok ++ Except.error e :: restTrace) inputs marks
        = some (RunResult.fatalFetch e)
    ∧ runMarkAttempts (RunResult.fatalFetch e) = [] := by
  have hf := fetchAllUnread_error pages e restTrace h
  exact ⟨hf, by simp [mainRun, hf], rfl⟩

/-- C6 witness: a one-page trace whose second request fails. -/
theorem fetch_error_aborts_witness :
    fetchAllUnread [Except.ok ⟨[choreN], 2⟩, Except.error "boom"]
      = some (Except.error "boom")
    ∧ mainRun [Except.ok ⟨[choreN], 2⟩, Except.error "boom"] [] []
      = some (RunResult.fatalFetch "boom")
    ∧ runMarkAttempts (RunResult.fatalFetch "boom") = [] :=
  fetch_error_aborts [⟨[choreN], 2⟩] "boom" [] [] [] (by decide)

/-- C7: for every successful fetch the accumulated notification list is
the concatenation of the per-page results in request order (so its count
is the sum of the per-page counts and no page is dropped), the loop
stops exactly at the first response with `NextPage = 0` (later responses
are never requested), and a trace in which every response carries a
next-page indicator never terminates the loop. -/
theorem fetch_concat_pages (pages : List Page) (lastPage : Page)
    (restTrace : List (Except String Page))
    (h : ∀ p ∈ pages, p.nextPage ≠ 0) (hl : lastPage.nextPage = 0) :
    fetchAllUnread (pages.map Except.ok ++ Except.ok lastPage :: restTrace)
        = some (Except.ok ((pages.map Page.notes).flatten ++ lastPage.notes))
    ∧ ((pages.map Page.notes).flatten ++ lastPage.notes).length
        = (pages.map (fun p => p.notes.length)).sum + lastPage.notes.length
    ∧ (∀ trace : List (Except String Page),
        (∀ r ∈ trace, ∃ p, r = Except.ok p ∧ p.nextPage ≠ 0) →
        fetchAllUnread trace = none) := by
  refine ⟨fetchAllUnread_ok pages lastPage restTrace h hl, ?_,
    fun trace ht => fetchAllUnread_none trace ht⟩
  simp only [List.length_append, List.length_flatten, List.map_map]
  rfl

/-- C7 witness: a two-page fetch accumulates both pages in order and
stops at the page with no next-page indicator. -/
theorem fetch_concat_pages_witness :
    fetchAllUnread [Except.ok ⟨[choreN], 2⟩, Except.ok ⟨[featN], 0⟩]
      = some (Except.ok [choreN, featN]) :=
  (fetch_concat_pages [⟨[choreN], 2⟩] ⟨[featN], 0⟩ [] (by decide) rfl).1

/-- C8: for a non-auto-approved notification the reviewer reads one
input line, normalizes it by lowercasing then trimming whitespace, and
issues the mark-as-read call if and only if the normalized value is
`"y"` or `"yes"`; `"Y"`, `" yes "` and `"YES"` confirm, while `""`,
`"n"` and `"maybe"` skip with no remote call. -/
theorem review_confirm_iff (n : Notification) (inputs : List String) (marks : List Bool)
    (hn : isRenovate n = false) :
    (confirms (inputs.headD "") = true →
        reviewLoop [n] inputs marks = [(n, ItemOutcome.markedRead (marks.headD true))])
    ∧ (confirms (inputs.headD "") = false →
        reviewLoop [n] inputs marks = [(n, ItemOutcome.skipped)]
        ∧ markAttempts (reviewLoop [n] inputs marks) = [])
    ∧ (∀ s : String, confirms s = true ↔
        (goTrimSpace (goToLower s) = "y" ∨ goTrimSpace (goToLower s) = "yes"))
    ∧ confirms "Y" = true ∧ confirms " yes " = true ∧ confirms "YES" = true
    ∧ confirms "" = false ∧ confirms "n" = false ∧ confirms "maybe" = false := by
  refine ⟨?_, ?_, ?_, by decide, by decide, by decide, by decide, by decide, by decide⟩
  · intro hc
    simp only [List.headD_eq_head?_getD] at hc
    simp [reviewLoop, hn, hc]
  · intro hc
    simp only [List.headD_eq_head?_getD] at hc
    constructor
    · simp [reviewLoop, hn, hc]
    · simp [reviewLoop, hn, hc, markAttempts]
  · intro s
    simp [confirms, normalizeInput]

/-- C8 witness: input `"Y"` confirms a non-auto-approved notification. -/
theorem review_confirm_iff_witness :
    reviewLoop [featN] ["Y"] [true] = [(featN, ItemOutcome.markedRead true)] :=
  (review_confirm_iff featN ["Y"] [true] (by decide)).1 (by decide)

/-- C9: a failed mark-as-read call is never fatal: whatever the
mark-outcome oracle says, the review loop still produces exactly one
outcome per notification in the processing order (the item sequence does
not depend on the oracle, so the loop continues past a failure and no
item is retried), the per-item decision of whether a remote call is
made is also oracle-independent, and the run still reaches the final
completion result. -/
theorem mark_failure_nonfatal (ns : List Notification) (inputs : List String)
    (marks marks' : List Bool) (trace : List (Except String Page))
    (hfetch : fetchAllUnread trace = some (Except.ok ns)) (hne : ns ≠ []) :
    (reviewLoop (processOrder ns) inputs marks).map Prod.fst = processOrder ns
    ∧ (reviewLoop (processOrder ns) inputs marks).length = ns.length
    ∧ (reviewLoop (processOrder ns) inputs marks).map (fun p => madeRemoteCall p.2)
        = (reviewLoop (processOrder ns) inputs marks').map (fun p => madeRemoteCall p.2)
    ∧ mainRun trace inputs marks
        = some (RunResult.completed (reviewLoop (processOrder ns) inputs marks)) := by
  refine ⟨reviewLoop_map_fst _ _ _, ?_, reviewLoop_decisions_indep _ _ _ _, ?_⟩
  · rw [reviewLoop_length, processOrder_length]
  · simp [mainRun, hfetch, List.length_eq_zero, hne]

/-- C9 witness: a run whose first mark-as-read call fails still reaches
the completed result with both notifications processed. -/
theorem mark_failure_nonfatal_witness :
    mainRun [Except.ok ⟨[choreN, featN], 0⟩] ["y"] [false, true]
      = some (RunResult.completed
          (reviewLoop (processOrder [choreN, featN]) ["y"] [false, true])) :=
  (mark_failure_nonfatal [choreN, featN] ["y"] [false, true] [true]
    [Except.ok ⟨[choreN, featN], 0⟩] rfl (by decide)).2.2.2
